import Mathlib

/-!
Verification of the DNS zone-generation and DHCP lease reconciliation core
of the MAAS provisioning system, against its natural-language specification.

The zone generator is embedded from `src/maasserver/dns/zonegenerator.py`.
The collaborating data model (node groups, managed interfaces, host
mappings) is modelled from the spec, section 3, since the ORM model classes
are not part of the source slice.  The lease reconciler
(`maasserver/rpc/leases.py`) is likewise not in the slice (only its test
suite is), so `update_lease` is modelled from the spec, sections 4.2, 6 and
7, with the message formats and check ordering pinned by the tests in
`src/maasserver/rpc/tests/test_leases.py`.
-/

/-- Modelled from the spec (section 3): a managed network interface of a
node group, carrying its network CIDR and the low/high bounds of its
dynamic DHCP range.  `get_dynamic_ip_range` on the Python side returns the
(low, high) pair. -/
structure ManagedInterface where
  network : String
  ip_range_low : String
  ip_range_high : String
deriving DecidableEq

/-- Modelled from the spec (section 3): a node group (cluster) owning a DNS
fragment.  `name` is the DNS domain; `dnsManaged` is the result of
`manages_dns()`; `hostmap` is the hostname to IP mapping that
`get_hostname_ip_mapping` (the `mappings` lazydict factory) returns for the
group; `interfaces` is `get_managed_interfaces()`. -/
structure NodeGroup where
  name : String
  dnsManaged : Bool
  interfaces : List ManagedInterface
  hostmap : List (String × String)
deriving DecidableEq

/-- SRV record, from `provisioningserver.dns.config.SRVRecord` as used by
`ZoneGenerator._get_srv_mappings`. -/
structure SRVRecord where
  service : String
  port : Nat
  target : String
  priority : Nat
  weight : Nat
deriving DecidableEq

/-- Forward zone descriptor (`DNSForwardZoneConfig` constructor call in
`_gen_forward_zones`). -/
structure DNSForwardZoneConfig where
  domain : String
  serial : Nat
  dns_ip : String
  mapping : List (String × String)
  srv_mapping : List SRVRecord
  dynamic_ranges : List (String × String)
deriving DecidableEq

/-- Reverse zone descriptor (`DNSReverseZoneConfig` constructor call in
`_gen_reverse_zones`). -/
structure DNSReverseZoneConfig where
  domain : String
  serial : Nat
  mapping : List (String × String)
  network : String
  dynamic_ranges : List (String × String)
deriving DecidableEq

/-- A zone descriptor yielded by `ZoneGenerator.__iter__`. -/
inductive ZoneConfig where
  | forward (z : DNSForwardZoneConfig)
  | reverse (z : DNSReverseZoneConfig)
deriving DecidableEq

/-- The serial carried by a zone descriptor. -/
def zoneSerial : ZoneConfig → Nat
  | .forward z => z.serial
  | .reverse z => z.serial

/-- Association-list lookup (first binding wins), the semantics of Python
`dict` lookup used throughout. -/
def alookup {α β : Type} [DecidableEq α] : List (α × β) → α → Option β
  | [], _ => none
  | (k, v) :: rest, key => if k = key then some v else alookup rest key

/-- One step of Python dict building: binding `key` replaces an existing
entry for `key` in place, otherwise it is appended. -/
def dictInsert {α β : Type} [DecidableEq α] : List (α × β) → α × β → List (α × β)
  | [], p => [p]
  | (k, v) :: rest, p => if k = p.1 then p :: rest else (k, v) :: dictInsert rest p

/-- Build a Python dict from a stream of key/value pairs in iteration
order, as a dict comprehension does (later duplicate keys override). -/
def buildDict {α β : Type} [DecidableEq α] (l : List (α × β)) : List (α × β) :=
  l.foldl dictInsert []

/-- Embedding of `lazydict`: a cache of already-computed entries together
with the factory invoked by `__missing__` on a cache miss. -/
structure lazydict (α β : Type) where
  entries : List (α × β)
  factory : α → β

/-- The value `d[k]` returns: the cached value if present, otherwise the
factory result (which `__missing__` also stores; with the pure factories
used here the stored value always equals the factory value, so the value
returned is cache-independent). -/
def lazydict.getItemValue {α β : Type} [DecidableEq α] (d : lazydict α β) (k : α) : β :=
  match alookup d.entries k with
  | some v => v
  | none => d.factory k

/-- Embedding of `dict.get(k)`: consults only the cache and never calls `__missing__`.
This is the key difference from `d[k]` that `_gen_reverse_zones` trips
over when it passes `networks.get` as a sort key. -/
def lazydict.get {α β : Type} [DecidableEq α] (d : lazydict α β) (k : α) : Option β :=
  alookup d.entries k

/-- The network-details list for a node group, the factory of the
`networks` lazydict (`ZoneGenerator._get_networks.get_network`): one
`(network, (ip_range_low, ip_range_high))` entry per managed interface. -/
def networkDetails (g : NodeGroup) : List (String × (String × String)) :=
  g.interfaces.map (fun i => (i.network, (i.ip_range_low, i.ip_range_high)))

/-- Embedding of `ZoneGenerator._get_srv_mappings`: one SRV record for the configured
Windows KMS host, or nothing when it is unset or empty. -/
def get_srv_mappings (windows_kms_host : Option String) : List SRVRecord :=
  match windows_kms_host with
  | none => []
  | some h => if h = "" then [] else [⟨"_vlmcs._tcp", 1688, h, 0, 0⟩]

/-- Embedding of `ZoneGenerator._filter_dns_managed`: the subset of the given node
groups for which DNS is managed.  The Python version returns a `set`;
duplicates collapse, which `dedup` models (order within a Python set is
arbitrary; the embedding keeps first-occurrence order). -/
def filter_dns_managed (nodegroups : List NodeGroup) : List NodeGroup :=
  (nodegroups.filter (fun g => g.dnsManaged)).dedup

/-- Embedding of `ZoneGenerator._get_forward_nodegroups`: all DNS-managed node groups in
the database whose name is one of the requested domains. -/
def get_forward_nodegroups (db : List NodeGroup) (domains : List String) : List NodeGroup :=
  filter_dns_managed (db.filter (fun g => domains.contains g.name))

/-- Embedding of `ZoneGenerator._get_reverse_nodegroups`: the DNS-managed subset of the
given node groups. -/
def get_reverse_nodegroups (nodegroups : List NodeGroup) : List NodeGroup :=
  filter_dns_managed nodegroups

/-- The sort key of the forward pass: the node group's name (its DNS
domain). -/
def nameLe (a b : NodeGroup) : Prop := a.name ≤ b.name

instance : DecidableRel nameLe := fun a b => inferInstanceAs (Decidable (a.name ≤ b.name))

instance : IsTotal NodeGroup nameLe := ⟨fun a b => le_total a.name b.name⟩

instance : IsTrans NodeGroup nameLe := ⟨fun _ _ _ h h' => le_trans h h'⟩

/-- Embedding of `sorted(nodegroups, key=get_domain)` in `_gen_forward_zones`: a stable
sort by name (Python's `sorted` is stable; insertion sort is its stable
embedding). -/
def sortByName (l : List NodeGroup) : List NodeGroup := List.insertionSort nameLe l

/-- Embedding of `itertools.groupby(…, get_domain)` over the name-sorted list: split
into maximal consecutive runs of equal name, each tagged with that name. -/
def groupRuns : List NodeGroup → List (String × List NodeGroup)
  | [] => []
  | g :: rest =>
    match groupRuns rest with
    | [] => [(g.name, [g])]
    | (d, gs) :: more =>
      if g.name = d then (d, g :: gs) :: more else (g.name, [g]) :: (d, gs) :: more

/-- Embedding of `ZoneGenerator._gen_forward_zones`.  `dns_ip` stands for
the `get_dns_server_address()` call made at the head of the generator
(address resolution is assumed to succeed; its failure mode is outside the
claims).  One forward zone per domain, whose mapping is the dict
comprehension over `mappings[nodegroup].items()` of the domain's groups. -/
def gen_forward_zones (nodegroups : List NodeGroup) (serial : Nat) (dns_ip : String)
    (mappings : lazydict NodeGroup (List (String × String))) (srv_mappings : List SRVRecord) :
    List DNSForwardZoneConfig :=
  (groupRuns (sortByName nodegroups)).map (fun dg =>
    { domain := dg.1
      serial := serial
      dns_ip := dns_ip
      mapping := buildDict (dg.2.flatMap (fun g => mappings.getItemValue g))
      srv_mapping := srv_mappings
      dynamic_ranges := dg.2.flatMap (fun g =>
        g.interfaces.map (fun i => (i.ip_range_low, i.ip_range_high))) })

/-- Python 2 comparison of two network-details lists (lists of
`(network, (low, high))` tuples), compared lexicographically. -/
def cmpDetails : List (String × (String × String)) → List (String × (String × String)) → Ordering
  | [], [] => .eq
  | [], _ :: _ => .lt
  | _ :: _, [] => .gt
  | a :: as, b :: bs =>
    ((compare a.1 b.1).then ((compare a.2.1 b.2.1).then (compare a.2.2 b.2.2))).then
      (cmpDetails as bs)

/-- Python 2 ordering on the sort keys produced by `networks.get`: `None`
sorts below every real value; two `None`s compare equal.  (In the program
only the `None`/`None` case is ever exercised, because the cache is empty
when the sort runs.) -/
def optDetailsLe : Option (List (String × (String × String))) →
    Option (List (String × (String × String))) → Bool
  | none, _ => true
  | some _, none => false
  | some a, some b => !(cmpDetails a b == .gt)

/-- The sort relation of `sorted(nodegroups, key=networks.get)`: compare
the cached network details (`dict.get`, never the factory) of the two
groups. -/
def revLe (networks : lazydict NodeGroup (List (String × (String × String))))
    (a b : NodeGroup) : Prop :=
  optDetailsLe (networks.get a) (networks.get b) = true

instance (networks : lazydict NodeGroup (List (String × (String × String)))) :
    DecidableRel (revLe networks) :=
  fun _ _ => inferInstanceAs (Decidable (_ = true))

/-- Embedding of `ZoneGenerator._gen_reverse_zones`.  The sort key is
`networks.get`, which consults only the `networks` cache (empty when the
generator runs, since nothing populated it earlier), while the loop body
reads `networks[nodegroup]` and `mappings[nodegroup]` through
`__missing__`.  One reverse zone per `(network, dynamic range)` entry of
each group. -/
def gen_reverse_zones (nodegroups : List NodeGroup) (serial : Nat)
    (mappings : lazydict NodeGroup (List (String × String)))
    (networks : lazydict NodeGroup (List (String × (String × String)))) :
    List DNSReverseZoneConfig :=
  (List.insertionSort (revLe networks) nodegroups).flatMap (fun g =>
    (networks.getItemValue g).map (fun nr =>
      { domain := g.name
        serial := serial
        mapping := mappings.getItemValue g
        network := nr.1
        dynamic_ranges := [nr.2] }))

/-- Embedding of the `ZoneGenerator` constructor state: the normalized
node-group sequence, the optional bulk serial, and the optional serial
generator.  The generator is modelled as the stream of values successive
calls would return (`f 0` is the first call's result), so that "called
exactly once" is observable in the remaining stream. -/
structure ZoneGenerator where
  nodegroups : List NodeGroup
  serial : Option Nat
  serial_generator : Option (Nat → Nat)

/-- How an iteration attempt can fail before yielding zones. -/
inductive IterError where
  | assertionError
  | typeError
deriving DecidableEq

/-- Embedding of `serial = self.serial or self.serial_generator()` under Python
truthiness, guarded by the preceding
`assert not (self.serial is None and self.serial_generator is None)`:
a serial of `0` is falsy, so the generator is consulted; calling a `None`
generator raises `TypeError`.  Returns the serial used and the generator's
remaining stream. -/
def resolveSerial : Option Nat → Option (Nat → Nat) →
    Except IterError (Nat × Option (Nat → Nat))
  | none, none => .error .assertionError
  | some s, g =>
    if s ≠ 0 then .ok (s, g)
    else
      match g with
      | some f => .ok (f 0, some (fun n => f (n + 1)))
      | none => .error .typeError
  | none, some f => .ok (f 0, some (fun n => f (n + 1)))

/-- The fresh `mappings` lazydict built by `_get_mappings` at the start of
each pass: empty cache with the `get_hostname_ip_mapping` factory. -/
def freshMappings : lazydict NodeGroup (List (String × String)) := ⟨[], fun g => g.hostmap⟩

/-- The fresh `networks` lazydict built by `_get_networks` at the start of
each pass: empty cache with the network-details factory. -/
def freshNetworks : lazydict NodeGroup (List (String × (String × String))) :=
  ⟨[], networkDetails⟩

/-- Embedding of `ZoneGenerator.__iter__`, one generation pass.  `db` is
the node-group table queried by `_get_forward_nodegroups`; `dns_ip` stands
for the successfully resolved `get_dns_server_address()`; `kms` is the
`windows_kms_host` config.  Yields the forward zones followed by the
reverse zones, together with the serial generator's remaining stream. -/
def ZoneGenerator.iter (db : List NodeGroup) (dns_ip : String) (kms : Option String)
    (zg : ZoneGenerator) : Except IterError (List ZoneConfig × Option (Nat → Nat)) :=
  match resolveSerial zg.serial zg.serial_generator with
  | .error e => .error e
  | .ok (serial, rest) =>
    let fwd := get_forward_nodegroups db (zg.nodegroups.map (fun g => g.name))
    let rev := get_reverse_nodegroups zg.nodegroups
    .ok ((gen_forward_zones fwd serial dns_ip freshMappings (get_srv_mappings kms)).map .forward
      ++ (gen_reverse_zones rev serial freshMappings freshNetworks).map .reverse, rest)

/-! ### Lease reconciler

`maasserver/rpc/leases.py` is not part of the source slice (only
`tests/test_leases.py` is), so the reconciler below is modelled from the
spec, sections 4.2, 6 and 7.  The exact error messages and the order of the
validation checks (action first, then subnet, then family) are pinned by
the tests. -/

/-- An IP address family as it appears in a lease event. -/
inductive AddrFamily where
  | ipv4
  | ipv6
deriving DecidableEq

/-- The textual form of an address family, as it appears in error
messages. -/
def familyStr : AddrFamily → String
  | .ipv4 => "ipv4"
  | .ipv6 => "ipv6"

/-- Modelled from the spec: an IP address from a lease event — its family,
its numeric value within that family, and the textual form the event
carried (echoed verbatim in error messages). -/
structure Ip where
  family : AddrFamily
  val : Nat
  text : String
deriving DecidableEq

/-- Modelled from the spec (section 3): a subnet, owning a contiguous
address block of one family and belonging to a VLAN. -/
structure Subnet where
  id : Nat
  family : AddrFamily
  lo : Nat
  hi : Nat
  vlan : Nat
deriving DecidableEq

/-- Whether `ip` falls inside the subnet's block. -/
def Subnet.containsIp (sn : Subnet) (ip : Ip) : Bool :=
  decide (sn.family = ip.family) && decide (sn.lo ≤ ip.val) && decide (ip.val ≤ sn.hi)

/-- The subnet owning `ip`, if any (`Subnet.objects.get_best_subnet_for_ip`
on the Python side). -/
def findSubnet (subnets : List Subnet) (ip : Ip) : Option Subnet :=
  subnets.find? (fun sn => sn.containsIp ip)

/-- Modelled from the spec (section 3): a network interface record.
`isUnknown` marks the auto-vivified `UnknownInterface` kind; `name` is the
display name an event's hostname may set. -/
structure Iface where
  id : Nat
  mac : String
  vlan : Nat
  isUnknown : Bool
  name : String
deriving DecidableEq

/-- Allocation type of an IP assignment; lease events touch only
`discovered` rows. -/
inductive AllocType where
  | discovered
  | auto
  | sticky
  | userReserved
deriving DecidableEq

/-- Modelled from the spec (section 3): a `DiscoveredIPAssignment` /
`StaticIPAddress` row.  A `none` ip represents "lease released or expired,
identity remembered but address freed". -/
structure Assignment where
  id : Nat
  ifaceId : Nat
  family : AddrFamily
  ip : Option Nat
  subnetId : Nat
  allocType : AllocType
  lease_time : Nat
  created : Nat
  updated : Nat
deriving DecidableEq

/-- Modelled from the spec (section 6): the slice of the persistent store
that the lease reconciler reads and mutates.  `nextId` is the
auto-increment row id source. -/
structure LeaseState where
  subnets : List Subnet
  ifaces : List Iface
  assigns : List Assignment
  nextId : Nat
deriving DecidableEq

deriving instance DecidableEq for Except

/-- The structured `LeaseUpdateError`, carrying the offending datum
verbatim. -/
inductive LeaseUpdateError where
  | unknownAction (action : String)
  | noSubnet (ip : String)
  | familyMismatch (family : AddrFamily)
deriving DecidableEq

/-- The error message, in the exact formats asserted by
`test_leases.py`. -/
def LeaseUpdateError.message : LeaseUpdateError → String
  | .unknownAction a => "Unknown lease action: " ++ a
  | .noSubnet ip => "No subnet exists for: " ++ ip
  | .familyMismatch f => "Family for the subnet does not match. Expected: " ++ familyStr f

/-- The first interface carrying `mac`, if any. -/
def findIface (ifaces : List Iface) (mac : String) : Option Iface :=
  ifaces.find? (fun i => decide (i.mac = mac))

/-- Whether `a` is the `discovered` assignment of interface `ifaceId` in
family `fam` — the upsert key of the reconciler. -/
def isDiscoveredFor (ifaceId : Nat) (fam : AddrFamily) (a : Assignment) : Bool :=
  decide (a.ifaceId = ifaceId) && decide (a.family = fam) &&
    decide (a.allocType = AllocType.discovered)

/-- The existing `discovered` assignment for `(ifaceId, fam)`, if any. -/
def findAssign (assigns : List Assignment) (ifaceId : Nat) (fam : AddrFamily) :
    Option Assignment :=
  assigns.find? (isDiscoveredFor ifaceId fam)

/-- Replace the first `discovered` assignment for `(ifaceId, fam)` in
place by `f` of it, leaving every other row untouched. -/
def replaceAssign (ifaceId : Nat) (fam : AddrFamily) (f : Assignment → Assignment) :
    List Assignment → List Assignment
  | [] => []
  | a :: rest =>
    if isDiscoveredFor ifaceId fam a then f a :: rest
    else a :: replaceAssign ifaceId fam f rest

/-- The sentinel hostname literal meaning "no hostname provided". -/
def noneHostname : String := "(none)"

/-- Attach a lease event's hostname as the display name of the interface
with id `tid`; the `"(none)"` sentinel and an absent hostname change
nothing. -/
def applyHostname (hostname : Option String) (tid : Nat) (l : List Iface) : List Iface :=
  match hostname with
  | some hn =>
    if hn = noneHostname then l
    else l.map (fun i => if i.id = tid then { i with name := hn } else i)
  | none => l

/-- Modelled from the spec (section 4.2, commit): resolve or auto-vivify
the interface for `mac` (an `UnknownInterface` on the subnet's VLAN when
the MAC is unknown), attach a real hostname as the interface display name,
then create-or-update the single `discovered` assignment for that
interface and family, setting ip, subnet, lease time and both timestamps
from the event. -/
def commitLease (mac : String) (ip : Ip) (ip_family : AddrFamily) (timestamp : Nat)
    (lease_time : Nat) (hostname : Option String) (subnet : Subnet) (s : LeaseState) :
    LeaseState :=
  let found := findIface s.ifaces mac
  let iface := match found with
    | some i => i
    | none => ⟨s.nextId, mac, subnet.vlan, true, ""⟩
  let ifaces1 := match found with
    | some _ => s.ifaces
    | none => s.ifaces ++ [iface]
  let nid1 := match found with
    | some _ => s.nextId
    | none => s.nextId + 1
  let ifaces2 := applyHostname hostname iface.id ifaces1
  match findAssign s.assigns iface.id ip_family with
  | some _ =>
    { s with
      ifaces := ifaces2
      assigns := replaceAssign iface.id ip_family
        (fun a => { a with
          ip := some ip.val
          subnetId := subnet.id
          lease_time := lease_time
          created := timestamp
          updated := timestamp })
        s.assigns
      nextId := nid1 }
  | none =>
    { s with
      ifaces := ifaces2
      assigns := s.assigns ++
        [⟨nid1, iface.id, ip_family, some ip.val, subnet.id, .discovered,
          lease_time, timestamp, timestamp⟩]
      nextId := nid1 + 1 }

/-- Modelled from the spec (section 4.2, release/expiry): a MAC with no
known interface is a pure no-op; otherwise the `discovered` assignment for
the interface and family has its ip set to null in place (identity
preserved, row not deleted), and when none exists yet one is created with
a null ip, linked to the subnet owning the event's ip. -/
def releaseLease (mac : String) (ip_family : AddrFamily) (timestamp : Nat)
    (subnet : Subnet) (s : LeaseState) : LeaseState :=
  match findIface s.ifaces mac with
  | none => s
  | some iface =>
    match findAssign s.assigns iface.id ip_family with
    | some _ =>
      { s with
        assigns := replaceAssign iface.id ip_family (fun a => { a with ip := none }) s.assigns }
    | none =>
      { s with
        assigns := s.assigns ++
          [⟨s.nextId, iface.id, ip_family, none, subnet.id, .discovered, 0,
            timestamp, timestamp⟩]
        nextId := s.nextId + 1 }

/-- Modelled from the spec: `update_lease` / `apply_lease_event`.  The
validation order (unknown action, then missing subnet, then family
mismatch) is the order the tests observe. -/
def update_lease (action : String) (mac : String) (ip : Ip) (ip_family : AddrFamily)
    (timestamp : Nat) (lease_time : Nat) (hostname : Option String) (s : LeaseState) :
    Except LeaseUpdateError LeaseState :=
  if action ≠ "commit" ∧ action ≠ "release" ∧ action ≠ "expiry" then
    .error (.unknownAction action)
  else
    match findSubnet s.subnets ip with
    | none => .error (.noSubnet ip.text)
    | some subnet =>
      if subnet.family ≠ ip_family then .error (.familyMismatch ip_family)
      else if action = "commit" then
        .ok (commitLease mac ip ip_family timestamp lease_time hostname subnet s)
      else
        .ok (releaseLease mac ip_family timestamp subnet s)

/-- No two `discovered` rows share an `(interface, family)` key. -/
def noDupDisc : List Assignment → Bool
  | [] => true
  | a :: rest =>
    (rest.all (fun b =>
      !(decide (a.allocType = AllocType.discovered) &&
        decide (b.allocType = AllocType.discovered) &&
        decide (a.ifaceId = b.ifaceId) && decide (a.family = b.family)))) &&
    noDupDisc rest

/-- A well-formed store: row ids and interface ids are below the
auto-increment counter, assignments refer to interfaces by such ids, and
the `discovered` upsert key is unique — the invariant the transactional
update-or-create of the spec (section 5) maintains. -/
def LeaseState.wf (s : LeaseState) : Bool :=
  s.ifaces.all (fun i => decide (i.id < s.nextId)) &&
  s.assigns.all (fun a => decide (a.ifaceId < s.nextId)) &&
  noDupDisc s.assigns


/-- Concrete sample node group: domain "alpha", DNS-managed, one managed
interface on 10.0.0.0/24. -/
def ngAlpha : NodeGroup :=
  ⟨"alpha", true, [⟨"10.0.0.0/24", "10.0.0.100", "10.0.0.200"⟩], [("alpha-host", "10.0.0.5")]⟩

/-- Concrete sample node group: domain "beta", DNS-managed, one managed
interface on 192.168.0.0/24. -/
def ngBeta : NodeGroup :=
  ⟨"beta", true, [⟨"192.168.0.0/24", "192.168.0.10", "192.168.0.20"⟩],
    [("beta-host", "192.168.0.5")]⟩

/-- Concrete sample node group with DNS management disabled. -/
def ngDisabled : NodeGroup := ⟨"lab", false, [], [("dis-host", "10.0.0.9")]⟩

/-- Concrete sample node group: first of two clusters sharing the domain
"lab". -/
def ngLab1 : NodeGroup :=
  ⟨"lab", true, [⟨"10.0.0.0/24", "10.0.0.100", "10.0.0.200"⟩], [("alpha-host", "10.0.0.5")]⟩

/-- Concrete sample node group: second of two clusters sharing the domain
"lab". -/
def ngLab2 : NodeGroup :=
  ⟨"lab", true, [⟨"10.0.1.0/24", "10.0.1.100", "10.0.1.200"⟩], [("beta-host", "10.0.0.6")]⟩

/-! ### Helper lemmas about the lease store -/

theorem isDiscoveredFor_iff {ifaceId : Nat} {fam : AddrFamily} {a : Assignment} :
    isDiscoveredFor ifaceId fam a = true ↔
      a.ifaceId = ifaceId ∧ a.family = fam ∧ a.allocType = AllocType.discovered := by
  simp [isDiscoveredFor, Bool.and_eq_true, and_assoc]

theorem find?_of_filter_singleton {α : Type} {p : α → Bool} {a : α} :
    ∀ {l : List α}, l.filter p = [a] → l.find? p = some a := by
  intro l
  induction l with
  | nil => simp
  | cons b rest ih =>
    intro h
    by_cases hb : p b
    · rw [List.filter_cons_of_pos hb] at h
      rw [List.find?_cons, hb]
      exact congrArg some (List.cons.inj h).1
    · rw [List.filter_cons_of_neg hb] at h
      rw [List.find?_cons]
      simp only [Bool.not_eq_true] at hb
      rw [hb]
      exact ih h

theorem filter_eq_nil_of_find?_none {α : Type} {p : α → Bool} :
    ∀ {l : List α}, l.find? p = none → l.filter p = [] := by
  intro l
  induction l with
  | nil => simp
  | cons b rest ih =>
    intro h
    rw [List.find?_cons] at h
    by_cases hb : p b
    · simp [hb] at h
    · rw [List.filter_cons_of_neg hb]
      exact ih (by simpa [hb] using h)

theorem noDupDisc_filter_of_findAssign {l : List Assignment} {ifaceId : Nat}
    {fam : AddrFamily} {a : Assignment} (hnd : noDupDisc l = true)
    (hf : findAssign l ifaceId fam = some a) :
    l.filter (isDiscoveredFor ifaceId fam) = [a] := by
  induction l with
  | nil => simp [findAssign] at hf
  | cons b rest ih =>
    rw [noDupDisc, Bool.and_eq_true, List.all_eq_true] at hnd
    obtain ⟨hb, hrest⟩ := hnd
    unfold findAssign at hf
    rw [List.find?_cons] at hf
    by_cases hkb : isDiscoveredFor ifaceId fam b
    · rw [List.filter_cons_of_pos hkb]
      simp only [hkb] at hf
      obtain rfl : b = a := by injection hf
      have hnil : rest.filter (isDiscoveredFor ifaceId fam) = [] := by
        apply List.filter_eq_nil_iff.mpr
        intro c hc hkc
        have h1 := isDiscoveredFor_iff.mp hkb
        have h2 := isDiscoveredFor_iff.mp hkc
        have := hb c hc
        rw [h1.2.2, h2.2.2, h1.1, h2.1, h1.2.1, h2.2.1] at this
        simp at this
      rw [hnil]
    · rw [List.filter_cons_of_neg hkb]
      simp only [hkb] at hf
      exact ih hrest hf

theorem replaceAssign_length {ifaceId : Nat} {fam : AddrFamily} {f : Assignment → Assignment} :
    ∀ {l : List Assignment}, (replaceAssign ifaceId fam f l).length = l.length := by
  intro l
  induction l with
  | nil => rfl
  | cons a rest ih =>
    rw [replaceAssign]
    by_cases ha : isDiscoveredFor ifaceId fam a <;> simp [ha, ih]

theorem replaceAssign_filter (ifaceId : Nat) (fam : AddrFamily) (f : Assignment → Assignment)
    {a : Assignment}
    (hf : ∀ b, isDiscoveredFor ifaceId fam b = true → isDiscoveredFor ifaceId fam (f b) = true) :
    ∀ {l : List Assignment}, l.filter (isDiscoveredFor ifaceId fam) = [a] →
      (replaceAssign ifaceId fam f l).filter (isDiscoveredFor ifaceId fam) = [f a] := by
  intro l
  induction l with
  | nil => simp
  | cons b rest ih =>
    intro h
    by_cases hb : isDiscoveredFor ifaceId fam b
    · rw [List.filter_cons_of_pos hb] at h
      obtain ⟨rfl, hrest⟩ : b = a ∧ rest.filter (isDiscoveredFor ifaceId fam) = [] :=
        ⟨(List.cons.inj h).1, (List.cons.inj h).2⟩
      rw [replaceAssign, if_pos hb, List.filter_cons_of_pos (hf _ hb), hrest]
    · rw [List.filter_cons_of_neg hb] at h
      rw [replaceAssign, if_neg hb, List.filter_cons_of_neg hb]
      exact ih h

theorem replaceAssign_eq_self (ifaceId : Nat) (fam : AddrFamily) (f : Assignment → Assignment)
    {a : Assignment} (hfa : f a = a) :
    ∀ {l : List Assignment}, l.filter (isDiscoveredFor ifaceId fam) = [a] →
      replaceAssign ifaceId fam f l = l := by
  intro l
  induction l with
  | nil => simp [replaceAssign]
  | cons b rest ih =>
    intro h
    by_cases hb : isDiscoveredFor ifaceId fam b
    · rw [List.filter_cons_of_pos hb] at h
      obtain rfl : b = a := (List.cons.inj h).1
      rw [replaceAssign, if_pos hb, hfa]
    · rw [List.filter_cons_of_neg hb] at h
      rw [replaceAssign, if_neg hb, ih h]

theorem replaceAssign_filter_other_family {ifaceId : Nat} {fam : AddrFamily}
    {f : Assignment → Assignment}
    (hf : ∀ b, isDiscoveredFor ifaceId fam b = true → (f b).family = b.family) :
    ∀ {l : List Assignment},
      (replaceAssign ifaceId fam f l).filter (fun a => decide (a.family ≠ fam)) =
        l.filter (fun a => decide (a.family ≠ fam)) := by
  intro l
  induction l with
  | nil => rfl
  | cons b rest ih =>
    by_cases hb : isDiscoveredFor ifaceId fam b
    · have hfamb : b.family = fam := (isDiscoveredFor_iff.mp hb).2.1
      have hffam : (f b).family = fam := (hf b hb).trans hfamb
      rw [replaceAssign, if_pos hb]
      rw [List.filter_cons_of_neg (by simp [hffam]), List.filter_cons_of_neg (by simp [hfamb])]
    · rw [replaceAssign, if_neg hb, List.filter_cons, List.filter_cons, ih]

theorem findIface_some {l : List Iface} {mac : String} {i : Iface}
    (h : findIface l mac = some i) : i.mac = mac ∧ i ∈ l := by
  refine ⟨?_, List.mem_of_find?_eq_some h⟩
  have := List.find?_some h
  simpa using this

theorem findAssign_some {l : List Assignment} {ifaceId : Nat} {fam : AddrFamily}
    {a : Assignment} (h : findAssign l ifaceId fam = some a) :
    a.ifaceId = ifaceId ∧ a.family = fam ∧ a.allocType = AllocType.discovered :=
  isDiscoveredFor_iff.mp (List.find?_some h)

theorem applyHostname_findIface (hostname : Option String) (tid : Nat) {l : List Iface}
    {mac : String} {i : Iface} (h : findIface l mac = some i) :
    ∃ i', findIface (applyHostname hostname tid l) mac = some i' ∧
      i'.id = i.id ∧ i'.mac = i.mac := by
  match hostname with
  | none => exact ⟨i, h, rfl, rfl⟩
  | some hn =>
    by_cases hs : hn = noneHostname
    · exact ⟨i, by simpa [applyHostname, hs] using h, rfl, rfl⟩
    · refine ⟨if i.id = tid then { i with name := hn } else i, ?_, ?_, ?_⟩
      · rw [applyHostname]
        simp only [hs, if_neg, ite_false]
        rw [findIface, List.find?_map]
        have hpred : ∀ j : Iface,
            (fun x : Iface => decide (x.mac = mac))
              ((fun x : Iface => if x.id = tid then { x with name := hn } else x) j) =
            decide (j.mac = mac) := by
          intro j
          by_cases hj : j.id = tid <;> simp [hj]
        rw [show ((fun x : Iface => decide (x.mac = mac)) ∘
            (fun x : Iface => if x.id = tid then { x with name := hn } else x)) =
            (fun j : Iface => decide (j.mac = mac)) from funext hpred]
        rw [findIface] at h
        rw [h]
        rfl
      · by_cases hj : i.id = tid <;> simp [hj]
      · by_cases hj : i.id = tid <;> simp [hj]

theorem applyHostname_idem {hostname : Option String} {tid : Nat} {l : List Iface} :
    applyHostname hostname tid (applyHostname hostname tid l) =
      applyHostname hostname tid l := by
  match hostname with
  | none => rfl
  | some hn =>
    by_cases hs : hn = noneHostname
    · simp [applyHostname, hs]
    · rw [applyHostname, applyHostname]
      simp only [hs, ite_false]
      rw [List.map_map]
      congr 1
      funext i
      by_cases hj : i.id = tid <;> simp [hj]

/-! ### Claim theorems: lease reconciler -/

/-- C10: a release or expiry event whose MAC belongs to an already-known
interface, but for which no `discovered` assignment exists yet, is not a
no-op: it appends a new `discovered` assignment with a null ip, linked to
the subnet owning the event's ip and to that interface.  (The pure no-op
case is the one with no known interface, handled in C3.) -/
theorem C10_release_known_mac_creates_null_row
    (action mac : String) (ip : Ip) (fam : AddrFamily) (t lt : Nat) (hn : Option String)
    (s : LeaseState) (sn : Subnet) (iface : Iface)
    (hact : action = "release" ∨ action = "expiry")
    (hsn : findSubnet s.subnets ip = some sn)
    (hfam : sn.family = fam)
    (hif : findIface s.ifaces mac = some iface)
    (hna : findAssign s.assigns iface.id fam = none) :
    update_lease action mac ip fam t lt hn s =
      .ok { s with
        assigns := s.assigns ++
          [⟨s.nextId, iface.id, fam, none, sn.id, .discovered, 0, t, t⟩]
        nextId := s.nextId + 1 } := by
  rcases hact with h | h <;> subst h <;>
    simp [update_lease, hsn, hfam, releaseLease, hif, hna]

/-- Closed witness for C10: a concrete release for a known MAC with no
prior assignment creates the null-ip discovered row. -/
theorem C10_release_known_mac_creates_null_row_witness :
    update_lease "release" "aa:bb" ⟨.ipv4, 15, "10.0.0.15"⟩ .ipv4 100 0 none
      ⟨[⟨0, .ipv4, 10, 20, 1⟩], [⟨0, "aa:bb", 1, false, ""⟩], [], 1⟩ =
      .ok ⟨[⟨0, .ipv4, 10, 20, 1⟩], [⟨0, "aa:bb", 1, false, ""⟩],
        [⟨1, 0, .ipv4, none, 0, .discovered, 0, 100, 100⟩], 2⟩ :=
  C10_release_known_mac_creates_null_row "release" "aa:bb" ⟨.ipv4, 15, "10.0.0.15"⟩ .ipv4 100 0
    none ⟨[⟨0, .ipv4, 10, 20, 1⟩], [⟨0, "aa:bb", 1, false, ""⟩], [], 1⟩ ⟨0, .ipv4, 10, 20, 1⟩
    ⟨0, "aa:bb", 1, false, ""⟩ (Or.inl rfl) (by decide) rfl (by decide) rfl

/-- C9: a commit event leaves every assignment whose address family
differs from the event's family entirely unchanged — the other-family rows
of the store are the same rows, in the same order, after the commit; only
the matching-family record is created or replaced. -/
theorem C9_commit_preserves_other_family
    (mac : String) (ip : Ip) (fam : AddrFamily) (t lt : Nat) (hn : Option String)
    (s s' : LeaseState) (sn : Subnet)
    (hsn : findSubnet s.subnets ip = some sn)
    (hfam : sn.family = fam)
    (hok : update_lease "commit" mac ip fam t lt hn s = .ok s') :
    s'.assigns.filter (fun a => decide (a.family ≠ fam)) =
      s.assigns.filter (fun a => decide (a.family ≠ fam)) := by
  have hs' : commitLease mac ip fam t lt hn sn s = s' := by
    simpa [update_lease, hsn, hfam] using hok
  subst hs'
  rw [commitLease]
  cases hfound : findIface s.ifaces mac with
  | some i =>
    simp only [hfound]
    cases hfa : findAssign s.assigns i.id fam with
    | some a0 =>
      simp only [hfa]
      apply replaceAssign_filter_other_family
      intro b _
      rfl
    | none =>
      simp only [hfa, List.filter_append]
      simp
  | none =>
    simp only [hfound]
    cases hfa : findAssign s.assigns s.nextId fam with
    | some a0 =>
      simp only [hfa]
      apply replaceAssign_filter_other_family
      intro b _
      rfl
    | none =>
      simp only [hfa, List.filter_append]
      simp

/-- Closed witness for C9: a concrete commit in IPv4 leaves a pre-existing
IPv6 discovered row untouched. -/
theorem C9_commit_preserves_other_family_witness :
    ([⟨7, 0, .ipv6, some 3, 5, .discovered, 9, 8, 8⟩,
      ⟨10, 0, .ipv4, some 15, 0, .discovered, 30, 100, 100⟩].filter
        (fun a : Assignment => decide (a.family ≠ AddrFamily.ipv4))) =
      ([⟨7, 0, .ipv6, some 3, 5, .discovered, 9, 8, 8⟩].filter
        (fun a : Assignment => decide (a.family ≠ AddrFamily.ipv4))) :=
  C9_commit_preserves_other_family "aa:bb" ⟨.ipv4, 15, "10.0.0.15"⟩ .ipv4 100 30 none
    ⟨[⟨0, .ipv4, 10, 20, 1⟩], [⟨0, "aa:bb", 1, false, ""⟩],
      [⟨7, 0, .ipv6, some 3, 5, .discovered, 9, 8, 8⟩], 10⟩
    ⟨[⟨0, .ipv4, 10, 20, 1⟩], [⟨0, "aa:bb", 1, false, ""⟩],
      [⟨7, 0, .ipv6, some 3, 5, .discovered, 9, 8, 8⟩,
       ⟨10, 0, .ipv4, some 15, 0, .discovered, 30, 100, 100⟩], 11⟩
    ⟨0, .ipv4, 10, 20, 1⟩ (by decide) rfl (by decide)

/-- C3: `update_lease` raises `LeaseUpdateError` exactly for (i) an
unrecognized action, echoing the action verbatim, (ii) an ip owned by no
subnet, echoing the offending ip string, (iii) an address family differing
from the resolved subnet's family, echoing the requested family; with a
recognized action, an owning subnet and a matching family it succeeds, and
a release or expiry for a MAC with no known interface is a pure no-op
returning the store unchanged. -/
theorem C3_update_lease_error_cases
    (action mac : String) (ip : Ip) (fam : AddrFamily) (t lt : Nat) (hn : Option String)
    (s : LeaseState) :
    (¬(action = "commit" ∨ action = "release" ∨ action = "expiry") →
      update_lease action mac ip fam t lt hn s = .error (.unknownAction action) ∧
      (LeaseUpdateError.unknownAction action).message = "Unknown lease action: " ++ action) ∧
    ((action = "commit" ∨ action = "release" ∨ action = "expiry") →
      findSubnet s.subnets ip = none →
      update_lease action mac ip fam t lt hn s = .error (.noSubnet ip.text) ∧
      (LeaseUpdateError.noSubnet ip.text).message = "No subnet exists for: " ++ ip.text) ∧
    (∀ sn, (action = "commit" ∨ action = "release" ∨ action = "expiry") →
      findSubnet s.subnets ip = some sn → sn.family ≠ fam →
      update_lease action mac ip fam t lt hn s = .error (.familyMismatch fam) ∧
      (LeaseUpdateError.familyMismatch fam).message =
        "Family for the subnet does not match. Expected: " ++ familyStr fam) ∧
    (∀ sn, (action = "commit" ∨ action = "release" ∨ action = "expiry") →
      findSubnet s.subnets ip = some sn → sn.family = fam →
      ∃ s', update_lease action mac ip fam t lt hn s = .ok s') ∧
    ((action = "release" ∨ action = "expiry") → findIface s.ifaces mac = none →
      ∀ sn, findSubnet s.subnets ip = some sn → sn.family = fam →
      update_lease action mac ip fam t lt hn s = .ok s) := by
  refine ⟨?_, ?_, ?_, ?_, ?_⟩
  · intro h
    have h1 : action ≠ "commit" := fun e => h (Or.inl e)
    have h2 : action ≠ "release" := fun e => h (Or.inr (Or.inl e))
    have h3 : action ≠ "expiry" := fun e => h (Or.inr (Or.inr e))
    exact ⟨by simp [update_lease, h1, h2, h3], rfl⟩
  · intro hact hsn
    rcases hact with h | h | h <;> subst h <;>
      exact ⟨by simp [update_lease, hsn], rfl⟩
  · intro sn hact hsn hfam
    rcases hact with h | h | h <;> subst h <;>
      exact ⟨by simp [update_lease, hsn, hfam], rfl⟩
  · intro sn hact hsn hfam
    rcases hact with h | h | h <;> subst h
    · exact ⟨commitLease mac ip fam t lt hn sn s, by simp [update_lease, hsn, hfam]⟩
    · exact ⟨releaseLease mac fam t sn s, by simp [update_lease, hsn, hfam]⟩
    · exact ⟨releaseLease mac fam t sn s, by simp [update_lease, hsn, hfam]⟩
  · intro hact hifn sn hsn hfam
    rcases hact with h | h <;> subst h <;>
      simp [update_lease, hsn, hfam, releaseLease, hifn]

/-- Closed witness for C3: each of the five cases at a concrete store —
an unknown action, an ip no subnet owns, a family mismatch, a successful
commit, and the pure no-op release for an unknown MAC. -/
theorem C3_update_lease_error_cases_witness :
    (update_lease "bogus" "aa:bb" ⟨.ipv4, 15, "10.0.0.15"⟩ .ipv4 100 30 none
      ⟨[⟨0, .ipv4, 10, 20, 1⟩], [⟨0, "aa:bb", 1, false, ""⟩], [], 1⟩ =
        .error (.unknownAction "bogus")) ∧
    ((LeaseUpdateError.unknownAction "bogus").message = "Unknown lease action: " ++ "bogus") ∧
    (update_lease "commit" "aa:bb" ⟨.ipv4, 99, "9.9.9.9"⟩ .ipv4 100 30 none
      ⟨[⟨0, .ipv4, 10, 20, 1⟩], [⟨0, "aa:bb", 1, false, ""⟩], [], 1⟩ =
        .error (.noSubnet "9.9.9.9")) ∧
    (update_lease "commit" "aa:bb" ⟨.ipv4, 15, "10.0.0.15"⟩ .ipv6 100 30 none
      ⟨[⟨0, .ipv4, 10, 20, 1⟩], [⟨0, "aa:bb", 1, false, ""⟩], [], 1⟩ =
        .error (.familyMismatch .ipv6)) ∧
    (∃ s', update_lease "commit" "aa:bb" ⟨.ipv4, 15, "10.0.0.15"⟩ .ipv4 100 30 none
      ⟨[⟨0, .ipv4, 10, 20, 1⟩], [⟨0, "aa:bb", 1, false, ""⟩], [], 1⟩ = .ok s') ∧
    (update_lease "release" "zz:zz" ⟨.ipv4, 15, "10.0.0.15"⟩ .ipv4 100 0 none
      ⟨[⟨0, .ipv4, 10, 20, 1⟩], [⟨0, "aa:bb", 1, false, ""⟩], [], 1⟩ =
        .ok ⟨[⟨0, .ipv4, 10, 20, 1⟩], [⟨0, "aa:bb", 1, false, ""⟩], [], 1⟩) :=
  ⟨((C3_update_lease_error_cases "bogus" "aa:bb" ⟨.ipv4, 15, "10.0.0.15"⟩ .ipv4 100 30 none
      ⟨[⟨0, .ipv4, 10, 20, 1⟩], [⟨0, "aa:bb", 1, false, ""⟩], [], 1⟩).1 (by decide)).1,
   ((C3_update_lease_error_cases "bogus" "aa:bb" ⟨.ipv4, 15, "10.0.0.15"⟩ .ipv4 100 30 none
      ⟨[⟨0, .ipv4, 10, 20, 1⟩], [⟨0, "aa:bb", 1, false, ""⟩], [], 1⟩).1 (by decide)).2,
   ((C3_update_lease_error_cases "commit" "aa:bb" ⟨.ipv4, 99, "9.9.9.9"⟩ .ipv4 100 30 none
      ⟨[⟨0, .ipv4, 10, 20, 1⟩], [⟨0, "aa:bb", 1, false, ""⟩], [], 1⟩).2.1
      (Or.inl rfl) (by decide)).1,
   ((C3_update_lease_error_cases "commit" "aa:bb" ⟨.ipv4, 15, "10.0.0.15"⟩ .ipv6 100 30 none
      ⟨[⟨0, .ipv4, 10, 20, 1⟩], [⟨0, "aa:bb", 1, false, ""⟩], [], 1⟩).2.2.1
      ⟨0, .ipv4, 10, 20, 1⟩ (Or.inl rfl) (by decide) (by decide)).1,
   (C3_update_lease_error_cases "commit" "aa:bb" ⟨.ipv4, 15, "10.0.0.15"⟩ .ipv4 100 30 none
      ⟨[⟨0, .ipv4, 10, 20, 1⟩], [⟨0, "aa:bb", 1, false, ""⟩], [], 1⟩).2.2.2.1
      ⟨0, .ipv4, 10, 20, 1⟩ (Or.inl rfl) (by decide) rfl,
   (C3_update_lease_error_cases "release" "zz:zz" ⟨.ipv4, 15, "10.0.0.15"⟩ .ipv4 100 0 none
      ⟨[⟨0, .ipv4, 10, 20, 1⟩], [⟨0, "aa:bb", 1, false, ""⟩], [], 1⟩).2.2.2.2
      (Or.inl rfl) (by decide) ⟨0, .ipv4, 10, 20, 1⟩ (by decide) rfl⟩

theorem wf_noDupDisc {s : LeaseState} (h : s.wf = true) : noDupDisc s.assigns = true := by
  rw [LeaseState.wf, Bool.and_eq_true, Bool.and_eq_true] at h
  exact h.2

theorem wf_ifaceId_lt {s : LeaseState} (h : s.wf = true) :
    ∀ a ∈ s.assigns, a.ifaceId < s.nextId := by
  rw [LeaseState.wf, Bool.and_eq_true, Bool.and_eq_true, List.all_eq_true, List.all_eq_true] at h
  intro a ha
  simpa using h.1.2 a ha

/-- C4: for a MAC with a known interface, committing at `t1` and then
releasing at `t2 > t1` leaves exactly one `discovered` row for that
interface and family (ipv4): the commit produces the single row `a1`
carrying the event's ip and subnet, and the release turns that very row
into `a1` with its ip nulled — same id, same subnet linkage, same
interface linkage — while the total number of assignment rows is
unchanged (nothing is deleted). -/
theorem C4_commit_then_release_roundtrip
    (mac : String) (ip : Ip) (t1 t2 lt : Nat) (hn : Option String)
    (s : LeaseState) (sn : Subnet) (iface : Iface)
    (hwf : s.wf = true)
    (ht : t1 < t2)
    (hsn : findSubnet s.subnets ip = some sn)
    (hfam : sn.family = .ipv4)
    (hif : findIface s.ifaces mac = some iface) :
    ∃ s1 s2 a1,
      update_lease "commit" mac ip .ipv4 t1 lt hn s = .ok s1 ∧
      update_lease "release" mac ip .ipv4 t2 0 none s1 = .ok s2 ∧
      s1.assigns.filter (isDiscoveredFor iface.id .ipv4) = [a1] ∧
      a1.ifaceId = iface.id ∧ a1.ip = some ip.val ∧ a1.subnetId = sn.id ∧
      s2.assigns.filter (isDiscoveredFor iface.id .ipv4) = [{ a1 with ip := none }] ∧
      s2.assigns.length = s1.assigns.length := by
  have hnd := wf_noDupDisc hwf
  have h1 : update_lease "commit" mac ip .ipv4 t1 lt hn s =
      .ok (commitLease mac ip .ipv4 t1 lt hn sn s) := by
    simp [update_lease, hsn, hfam]
  obtain ⟨i2, hi2find, hi2id, _⟩ := applyHostname_findIface hn iface.id hif
  cases hfa : findAssign s.assigns iface.id .ipv4 with
  | some a0 =>
    have hfilter : s.assigns.filter (isDiscoveredFor iface.id .ipv4) = [a0] :=
      noDupDisc_filter_of_findAssign hnd hfa
    have hcl : commitLease mac ip .ipv4 t1 lt hn sn s =
        { s with
          ifaces := applyHostname hn iface.id s.ifaces
          assigns := replaceAssign iface.id .ipv4
            (fun a => { a with
              ip := some ip.val
              subnetId := sn.id
              lease_time := lt
              created := t1
              updated := t1 }) s.assigns } := by
      rw [commitLease]
      simp only [hif, hfa]
    rw [hcl] at h1
    have hf1 : (replaceAssign iface.id .ipv4
        (fun a => { a with
          ip := some ip.val
          subnetId := sn.id
          lease_time := lt
          created := t1
          updated := t1 }) s.assigns).filter (isDiscoveredFor iface.id .ipv4) =
        [{ a0 with
          ip := some ip.val
          subnetId := sn.id
          lease_time := lt
          created := t1
          updated := t1 }] :=
      replaceAssign_filter iface.id .ipv4
        (fun a => { a with
          ip := some ip.val
          subnetId := sn.id
          lease_time := lt
          created := t1
          updated := t1 }) (fun b hb => hb) hfilter
    have hfind2 : findAssign (replaceAssign iface.id .ipv4
        (fun a => { a with
          ip := some ip.val
          subnetId := sn.id
          lease_time := lt
          created := t1
          updated := t1 }) s.assigns) i2.id .ipv4 =
        some { a0 with
          ip := some ip.val
          subnetId := sn.id
          lease_time := lt
          created := t1
          updated := t1 } := by
      rw [hi2id]
      exact find?_of_filter_singleton hf1
    refine ⟨{ s with
        ifaces := applyHostname hn iface.id s.ifaces
        assigns := replaceAssign iface.id .ipv4
          (fun a => { a with
            ip := some ip.val
            subnetId := sn.id
            lease_time := lt
            created := t1
            updated := t1 }) s.assigns },
      { s with
        ifaces := applyHostname hn iface.id s.ifaces
        assigns := replaceAssign i2.id .ipv4 (fun a => { a with ip := none })
          (replaceAssign iface.id .ipv4
            (fun a => { a with
              ip := some ip.val
              subnetId := sn.id
              lease_time := lt
              created := t1
              updated := t1 }) s.assigns) },
      { a0 with
        ip := some ip.val
        subnetId := sn.id
        lease_time := lt
        created := t1
        updated := t1 },
      h1, ?_, hf1, (findAssign_some hfa).1, rfl, rfl, ?_, ?_⟩
    · simp [update_lease, hsn, hfam, releaseLease, hi2find, hfind2]
    · rw [hi2id]
      exact replaceAssign_filter iface.id .ipv4 (fun a => { a with ip := none })
        (fun b hb => hb) hf1
    · rw [hi2id]
      exact replaceAssign_length
  | none =>
    have hfilter : s.assigns.filter (isDiscoveredFor iface.id .ipv4) = [] :=
      filter_eq_nil_of_find?_none hfa
    have hcl : commitLease mac ip .ipv4 t1 lt hn sn s =
        { s with
          ifaces := applyHostname hn iface.id s.ifaces
          assigns := s.assigns ++
            [⟨s.nextId, iface.id, .ipv4, some ip.val, sn.id, .discovered, lt, t1, t1⟩]
          nextId := s.nextId + 1 } := by
      rw [commitLease]
      simp only [hif, hfa]
    rw [hcl] at h1
    have hf1 : List.filter (isDiscoveredFor iface.id .ipv4)
        (s.assigns ++
          [⟨s.nextId, iface.id, .ipv4, some ip.val, sn.id, .discovered, lt, t1, t1⟩]) =
        [⟨s.nextId, iface.id, .ipv4, some ip.val, sn.id, .discovered, lt, t1, t1⟩] := by
      rw [List.filter_append, hfilter]
      simp [isDiscoveredFor]
    have hfind2 : findAssign (s.assigns ++
        [⟨s.nextId, iface.id, .ipv4, some ip.val, sn.id, .discovered, lt, t1, t1⟩]) i2.id .ipv4 =
        some ⟨s.nextId, iface.id, .ipv4, some ip.val, sn.id, .discovered, lt, t1, t1⟩ := by
      rw [hi2id]
      exact find?_of_filter_singleton hf1
    refine ⟨{ s with
        ifaces := applyHostname hn iface.id s.ifaces
        assigns := s.assigns ++
          [⟨s.nextId, iface.id, .ipv4, some ip.val, sn.id, .discovered, lt, t1, t1⟩]
        nextId := s.nextId + 1 },
      { s with
        ifaces := applyHostname hn iface.id s.ifaces
        assigns := replaceAssign i2.id .ipv4 (fun a => { a with ip := none })
          (s.assigns ++
            [⟨s.nextId, iface.id, .ipv4, some ip.val, sn.id, .discovered, lt, t1, t1⟩])
        nextId := s.nextId + 1 },
      ⟨s.nextId, iface.id, .ipv4, some ip.val, sn.id, .discovered, lt, t1, t1⟩,
      h1, ?_, hf1, rfl, rfl, rfl, ?_, ?_⟩
    · simp [update_lease, hsn, hfam, releaseLease, hi2find, hfind2]
    · rw [hi2id]
      exact replaceAssign_filter iface.id .ipv4 (fun a => { a with ip := none })
        (fun b hb => hb) hf1
    · rw [hi2id]
      exact replaceAssign_length

/-- Closed witness for C4: the round trip on a concrete store. -/
theorem C4_commit_then_release_roundtrip_witness :
    0 < 1 ∧ ∃ s1 s2 a1,
      update_lease "commit" "aa:bb" ⟨.ipv4, 15, "10.0.0.15"⟩ .ipv4 100 110 none
        ⟨[⟨0, .ipv4, 10, 20, 1⟩], [⟨0, "aa:bb", 1, false, ""⟩], [], 1⟩ = .ok s1 ∧
      update_lease "release" "aa:bb" ⟨.ipv4, 15, "10.0.0.15"⟩ .ipv4 200 0 none s1 = .ok s2 ∧
      s1.assigns.filter (isDiscoveredFor 0 .ipv4) = [a1] ∧
      a1.ifaceId = 0 ∧ a1.ip = some 15 ∧ a1.subnetId = 0 ∧
      s2.assigns.filter (isDiscoveredFor 0 .ipv4) = [{ a1 with ip := none }] ∧
      s2.assigns.length = s1.assigns.length :=
  ⟨Nat.zero_lt_one,
    C4_commit_then_release_roundtrip "aa:bb" ⟨.ipv4, 15, "10.0.0.15"⟩ 100 200 110 none
      ⟨[⟨0, .ipv4, 10, 20, 1⟩], [⟨0, "aa:bb", 1, false, ""⟩], [], 1⟩ ⟨0, .ipv4, 10, 20, 1⟩
      ⟨0, "aa:bb", 1, false, ""⟩ (by decide) (by decide) (by decide) rfl rfl⟩

theorem findAssign_none_of_lt {l : List Assignment} {n : Nat} {fam : AddrFamily}
    (h : ∀ a ∈ l, a.ifaceId < n) : findAssign l n fam = none := by
  rw [findAssign]
  apply List.find?_eq_none.mpr
  intro a ha hk
  exact absurd ((isDiscoveredFor_iff.mp hk).1 ▸ h a ha) (Nat.lt_irrefl n)

theorem findIface_append_self {l : List Iface} {mac : String}
    (h : findIface l mac = none) {i : Iface} (hm : i.mac = mac) :
    findIface (l ++ [i]) mac = some i := by
  induction l with
  | nil => simp [findIface, List.find?, hm]
  | cons j rest ih =>
    rw [findIface] at h ⊢
    rw [List.cons_append, List.find?_cons] at *
    by_cases hj : decide (j.mac = mac) = true
    · rw [hj] at h
      exact absurd h (by simp)
    · simp only [Bool.not_eq_true] at hj
      rw [hj] at h ⊢
      exact ih h

/-- C5: applying the same commit event twice with identical parameters is
idempotent: the first application yields a store `s1` in which the event's
interface has exactly one `discovered` assignment in the event's family,
and the second application maps `s1` to `s1` itself (it updates the
existing record rather than creating a duplicate). -/
theorem C5_commit_idempotent
    (mac : String) (ip : Ip) (fam : AddrFamily) (t lt : Nat) (hn : Option String)
    (s : LeaseState) (sn : Subnet)
    (hwf : s.wf = true)
    (hsn : findSubnet s.subnets ip = some sn)
    (hfam : sn.family = fam) :
    ∃ s1, update_lease "commit" mac ip fam t lt hn s = .ok s1 ∧
      update_lease "commit" mac ip fam t lt hn s1 = .ok s1 ∧
      ∃ i, findIface s1.ifaces mac = some i ∧
        (s1.assigns.filter (isDiscoveredFor i.id fam)).length = 1 := by
  have hnd := wf_noDupDisc hwf
  have h1 : update_lease "commit" mac ip fam t lt hn s =
      .ok (commitLease mac ip fam t lt hn sn s) := by
    simp [update_lease, hsn, hfam]
  cases hfi : findIface s.ifaces mac with
  | some iface =>
    obtain ⟨i2, hi2find, hi2id, _⟩ := applyHostname_findIface hn iface.id hfi
    cases hfa : findAssign s.assigns iface.id fam with
    | some a0 =>
      have hfilter : s.assigns.filter (isDiscoveredFor iface.id fam) = [a0] :=
        noDupDisc_filter_of_findAssign hnd hfa
      have hcl : commitLease mac ip fam t lt hn sn s =
          { s with
            ifaces := applyHostname hn iface.id s.ifaces
            assigns := replaceAssign iface.id fam
              (fun a => { a with
                ip := some ip.val
                subnetId := sn.id
                lease_time := lt
                created := t
                updated := t }) s.assigns } := by
        rw [commitLease]
        simp only [hfi, hfa]
      have hf1 : (replaceAssign iface.id fam
          (fun a => { a with
            ip := some ip.val
            subnetId := sn.id
            lease_time := lt
            created := t
            updated := t }) s.assigns).filter (isDiscoveredFor iface.id fam) =
          [{ a0 with
            ip := some ip.val
            subnetId := sn.id
            lease_time := lt
            created := t
            updated := t }] :=
        replaceAssign_filter iface.id fam
          (fun a => { a with
            ip := some ip.val
            subnetId := sn.id
            lease_time := lt
            created := t
            updated := t }) (fun b hb => hb) hfilter
      have hfind2 : findAssign (replaceAssign iface.id fam
          (fun a => { a with
            ip := some ip.val
            subnetId := sn.id
            lease_time := lt
            created := t
            updated := t }) s.assigns) i2.id fam =
          some { a0 with
            ip := some ip.val
            subnetId := sn.id
            lease_time := lt
            created := t
            updated := t } := by
        rw [hi2id]
        exact find?_of_filter_singleton hf1
      have hAH : applyHostname hn i2.id (applyHostname hn iface.id s.ifaces) =
          applyHostname hn iface.id s.ifaces := by
        rw [hi2id]
        exact applyHostname_idem
      have hRS : replaceAssign i2.id fam
          (fun a => { a with
            ip := some ip.val
            subnetId := sn.id
            lease_time := lt
            created := t
            updated := t })
          (replaceAssign iface.id fam
            (fun a => { a with
              ip := some ip.val
              subnetId := sn.id
              lease_time := lt
              created := t
              updated := t }) s.assigns) =
          replaceAssign iface.id fam
            (fun a => { a with
              ip := some ip.val
              subnetId := sn.id
              lease_time := lt
              created := t
              updated := t }) s.assigns := by
        rw [hi2id]
        exact replaceAssign_eq_self iface.id fam _ rfl hf1
      rw [hcl] at h1
      refine ⟨_, h1, ?_, i2, hi2find, ?_⟩
      · simp [update_lease, hsn, hfam, commitLease, hi2find, hfind2, hAH, hRS]
      · rw [hi2id, hf1]
        rfl
    | none =>
      have hfilter : s.assigns.filter (isDiscoveredFor iface.id fam) = [] :=
        filter_eq_nil_of_find?_none hfa
      have hcl : commitLease mac ip fam t lt hn sn s =
          { s with
            ifaces := applyHostname hn iface.id s.ifaces
            assigns := s.assigns ++
              [⟨s.nextId, iface.id, fam, some ip.val, sn.id, .discovered, lt, t, t⟩]
            nextId := s.nextId + 1 } := by
        rw [commitLease]
        simp only [hfi, hfa]
      have hf1 : List.filter (isDiscoveredFor iface.id fam)
          (s.assigns ++
            [⟨s.nextId, iface.id, fam, some ip.val, sn.id, .discovered, lt, t, t⟩]) =
          [⟨s.nextId, iface.id, fam, some ip.val, sn.id, .discovered, lt, t, t⟩] := by
        rw [List.filter_append, hfilter]
        simp [isDiscoveredFor]
      have hfind2 : findAssign
          (s.assigns ++
            [⟨s.nextId, iface.id, fam, some ip.val, sn.id, .discovered, lt, t, t⟩]) i2.id fam =
          some ⟨s.nextId, iface.id, fam, some ip.val, sn.id, .discovered, lt, t, t⟩ := by
        rw [hi2id]
        exact find?_of_filter_singleton hf1
      have hAH : applyHostname hn i2.id (applyHostname hn iface.id s.ifaces) =
          applyHostname hn iface.id s.ifaces := by
        rw [hi2id]
        exact applyHostname_idem
      have hRS : replaceAssign i2.id fam
          (fun a => { a with
            ip := some ip.val
            subnetId := sn.id
            lease_time := lt
            created := t
            updated := t })
          (s.assigns ++
            [⟨s.nextId, iface.id, fam, some ip.val, sn.id, .discovered, lt, t, t⟩]) =
          s.assigns ++
            [⟨s.nextId, iface.id, fam, some ip.val, sn.id, .discovered, lt, t, t⟩] := by
        rw [hi2id]
        exact replaceAssign_eq_self iface.id fam _ rfl hf1
      rw [hcl] at h1
      refine ⟨_, h1, ?_, i2, hi2find, ?_⟩
      · simp [update_lease, hsn, hfam, commitLease, hi2find, hfind2, hAH, hRS]
      · rw [hi2id, hf1]
        rfl
  | none =>
    have hfa : findAssign s.assigns s.nextId fam = none :=
      findAssign_none_of_lt (wf_ifaceId_lt hwf)
    have hfiapp : findIface (s.ifaces ++ [⟨s.nextId, mac, sn.vlan, true, ""⟩]) mac =
        some ⟨s.nextId, mac, sn.vlan, true, ""⟩ :=
      findIface_append_self hfi rfl
    obtain ⟨i2, hi2find, hi2id, _⟩ := applyHostname_findIface hn s.nextId hfiapp
    have hcl : commitLease mac ip fam t lt hn sn s =
        { s with
          ifaces := applyHostname hn s.nextId (s.ifaces ++ [⟨s.nextId, mac, sn.vlan, true, ""⟩])
          assigns := s.assigns ++
            [⟨s.nextId + 1, s.nextId, fam, some ip.val, sn.id, .discovered, lt, t, t⟩]
          nextId := s.nextId + 1 + 1 } := by
      rw [commitLease]
      simp only [hfi, hfa]
    have hf1 : List.filter (isDiscoveredFor s.nextId fam)
        (s.assigns ++
          [⟨s.nextId + 1, s.nextId, fam, some ip.val, sn.id, .discovered, lt, t, t⟩]) =
        [⟨s.nextId + 1, s.nextId, fam, some ip.val, sn.id, .discovered, lt, t, t⟩] := by
      rw [List.filter_append, filter_eq_nil_of_find?_none hfa]
      simp [isDiscoveredFor]
    have hfind2 : findAssign
        (s.assigns ++
          [⟨s.nextId + 1, s.nextId, fam, some ip.val, sn.id, .discovered, lt, t, t⟩]) i2.id fam =
        some ⟨s.nextId + 1, s.nextId, fam, some ip.val, sn.id, .discovered, lt, t, t⟩ := by
      rw [hi2id]
      exact find?_of_filter_singleton hf1
    have hAH : applyHostname hn i2.id
        (applyHostname hn s.nextId (s.ifaces ++ [⟨s.nextId, mac, sn.vlan, true, ""⟩])) =
        applyHostname hn s.nextId (s.ifaces ++ [⟨s.nextId, mac, sn.vlan, true, ""⟩]) := by
      rw [hi2id]
      exact applyHostname_idem
    have hRS : replaceAssign i2.id fam
        (fun a => { a with
          ip := some ip.val
          subnetId := sn.id
          lease_time := lt
          created := t
          updated := t })
        (s.assigns ++
          [⟨s.nextId + 1, s.nextId, fam, some ip.val, sn.id, .discovered, lt, t, t⟩]) =
        s.assigns ++
          [⟨s.nextId + 1, s.nextId, fam, some ip.val, sn.id, .discovered, lt, t, t⟩] := by
      rw [hi2id]
      exact replaceAssign_eq_self s.nextId fam _ rfl hf1
    rw [hcl] at h1
    refine ⟨_, h1, ?_, i2, hi2find, ?_⟩
    · simp [update_lease, hsn, hfam, commitLease, hi2find, hfind2, hAH, hRS]
    · rw [hi2id, hf1]
      rfl

/-- Closed witness for C5: idempotence of a concrete commit. -/
theorem C5_commit_idempotent_witness :
    ∃ s1, update_lease "commit" "aa:bb" ⟨.ipv4, 15, "10.0.0.15"⟩ .ipv4 100 30 (some "host")
        ⟨[⟨0, .ipv4, 10, 20, 1⟩], [⟨0, "aa:bb", 1, false, ""⟩], [], 1⟩ = .ok s1 ∧
      update_lease "commit" "aa:bb" ⟨.ipv4, 15, "10.0.0.15"⟩ .ipv4 100 30 (some "host") s1 =
        .ok s1 ∧
      ∃ i, findIface s1.ifaces "aa:bb" = some i ∧
        (s1.assigns.filter (isDiscoveredFor i.id .ipv4)).length = 1 :=
  C5_commit_idempotent "aa:bb" ⟨.ipv4, 15, "10.0.0.15"⟩ .ipv4 100 30 (some "host")
    ⟨[⟨0, .ipv4, 10, 20, 1⟩], [⟨0, "aa:bb", 1, false, ""⟩], [], 1⟩ ⟨0, .ipv4, 10, 20, 1⟩
    (by decide) (by decide) rfl

/-! ### Helper lemmas and claim theorems: zone generator -/

theorem freshMappings_getItemValue (g : NodeGroup) :
    freshMappings.getItemValue g = g.hostmap := rfl

theorem freshNetworks_getItemValue (g : NodeGroup) :
    freshNetworks.getItemValue g = networkDetails g := rfl

theorem gen_forward_zones_serial {ngs : List NodeGroup} {serial : Nat} {dns_ip : String}
    {mappings : lazydict NodeGroup (List (String × String))} {srv : List SRVRecord}
    {z : DNSForwardZoneConfig} (hz : z ∈ gen_forward_zones ngs serial dns_ip mappings srv) :
    z.serial = serial := by
  rw [gen_forward_zones] at hz
  obtain ⟨dg, _, rfl⟩ := List.mem_map.mp hz
  rfl

theorem gen_reverse_zones_serial {ngs : List NodeGroup} {serial : Nat}
    {mappings : lazydict NodeGroup (List (String × String))}
    {networks : lazydict NodeGroup (List (String × (String × String)))}
    {z : DNSReverseZoneConfig} (hz : z ∈ gen_reverse_zones ngs serial mappings networks) :
    z.serial = serial := by
  rw [gen_reverse_zones] at hz
  obtain ⟨g, _, hmem⟩ := List.mem_flatMap.mp hz
  obtain ⟨nr, _, rfl⟩ := List.mem_map.mp hmem
  rfl

theorem iter_ok_serial {db : List NodeGroup} {dns_ip : String} {kms : Option String}
    {zg : ZoneGenerator} {sv : Nat} {rest0 : Option (Nat → Nat)}
    {zs : List ZoneConfig} {rest : Option (Nat → Nat)}
    (hres : resolveSerial zg.serial zg.serial_generator = .ok (sv, rest0))
    (hok : ZoneGenerator.iter db dns_ip kms zg = .ok (zs, rest)) :
    (∀ z ∈ zs, zoneSerial z = sv) ∧ rest = rest0 := by
  rw [ZoneGenerator.iter, hres] at hok
  simp only [Except.ok.injEq, Prod.mk.injEq] at hok
  obtain ⟨hzs, hrest⟩ := hok
  refine ⟨?_, hrest.symm⟩
  intro z hz
  rw [← hzs] at hz
  rcases List.mem_append.mp hz with hz | hz
  · obtain ⟨f, hf, rfl⟩ := List.mem_map.mp hz
    exact gen_forward_zones_serial hf
  · obtain ⟨r, hr, rfl⟩ := List.mem_map.mp hz
    exact gen_reverse_zones_serial hr

/-- C1 (amended): when a nonzero serial is supplied at construction it is
used for every zone of the pass and the generator stream is untouched;
when the supplied serial is absent or zero (Python falsiness) and a
generator is present, the generator is called exactly once (one element of
the stream is consumed) and its single result is the serial of every
forward and reverse zone of the pass. -/
theorem C1_single_serial_per_pass (db : List NodeGroup) (dns_ip : String) (kms : Option String)
    (zg : ZoneGenerator) (zs : List ZoneConfig) (rest : Option (Nat → Nat)) :
    (∀ sv, zg.serial = some sv → sv ≠ 0 →
      ZoneGenerator.iter db dns_ip kms zg = .ok (zs, rest) →
      (∀ z ∈ zs, zoneSerial z = sv) ∧ rest = zg.serial_generator) ∧
    (∀ f, (zg.serial = none ∨ zg.serial = some 0) → zg.serial_generator = some f →
      ZoneGenerator.iter db dns_ip kms zg = .ok (zs, rest) →
      (∀ z ∈ zs, zoneSerial z = f 0) ∧ rest = some (fun n => f (n + 1))) := by
  constructor
  · intro sv hser hnz hok
    have hres : resolveSerial zg.serial zg.serial_generator = .ok (sv, zg.serial_generator) := by
      rw [hser]
      simp [resolveSerial, hnz]
    exact iter_ok_serial hres hok
  · intro f hser hgen hok
    have hres : resolveSerial zg.serial zg.serial_generator =
        .ok (f 0, some (fun n => f (n + 1))) := by
      rcases hser with h | h <;> rw [h, hgen] <;> simp [resolveSerial]
    exact iter_ok_serial hres hok

/-- Closed witness for C1 (amended): both branches at concrete inputs — a
nonzero supplied serial 5 is carried by both zones with the generator
stream untouched, and with no serial the generator value 7 is used once. -/
theorem C1_single_serial_per_pass_witness :
    ((∀ z ∈ [ZoneConfig.forward ⟨"alpha", 5, "10.9.9.9",
        [("alpha-host", "10.0.0.5")], [], [("10.0.0.100", "10.0.0.200")]⟩,
      ZoneConfig.reverse ⟨"alpha", 5, [("alpha-host", "10.0.0.5")], "10.0.0.0/24",
        [("10.0.0.100", "10.0.0.200")]⟩], zoneSerial z = 5) ∧
      (none : Option (Nat → Nat)) = none) ∧
    ((∀ z ∈ [ZoneConfig.forward ⟨"alpha", 7, "10.9.9.9",
        [("alpha-host", "10.0.0.5")], [], [("10.0.0.100", "10.0.0.200")]⟩,
      ZoneConfig.reverse ⟨"alpha", 7, [("alpha-host", "10.0.0.5")], "10.0.0.0/24",
        [("10.0.0.100", "10.0.0.200")]⟩], zoneSerial z = 7) ∧
      some (fun n : Nat => (fun _ : Nat => 7) (n + 1)) = some (fun _ : Nat => 7)) := by
  constructor
  · exact (C1_single_serial_per_pass [ngAlpha] "10.9.9.9" none ⟨[ngAlpha], some 5, none⟩
      _ _).1 5 rfl (by decide) rfl
  · exact (C1_single_serial_per_pass [ngAlpha] "10.9.9.9" none
      ⟨[ngAlpha], none, some (fun _ => 7)⟩ _ _).2 (fun _ => 7) (Or.inl rfl) rfl rfl

/-- Counterexample for C1 as stated: a serial of `0` supplied at
construction together with a generator.  The claim says the supplied
serial is then used for every zone; instead `serial or serial_generator()`
treats `0` as falsy, calls the generator, and stamps every zone with its
result `7`. -/
theorem C1_counterexample :
    ZoneGenerator.iter [ngAlpha] "10.9.9.9" none ⟨[ngAlpha], some 0, some (fun _ => 7)⟩ =
      .ok ([ZoneConfig.forward ⟨"alpha", 7, "10.9.9.9",
          [("alpha-host", "10.0.0.5")], [], [("10.0.0.100", "10.0.0.200")]⟩,
        ZoneConfig.reverse ⟨"alpha", 7, [("alpha-host", "10.0.0.5")], "10.0.0.0/24",
          [("10.0.0.100", "10.0.0.200")]⟩], some (fun _ => 7)) ∧
    (7 : Nat) ≠ 0 :=
  ⟨rfl, by decide⟩

/-- C7 (amended): iterating a `ZoneGenerator` requires at least one of
`serial` and `serial_generator`; when neither was supplied at
construction, iteration fails with the precondition assertion (a
programmer error), yielding no zones and no recoverable lease-style
error. -/
theorem C7_iter_asserts_when_neither_serial
    (db : List NodeGroup) (dns_ip : String) (kms : Option String) (zg : ZoneGenerator)
    (h1 : zg.serial = none) (h2 : zg.serial_generator = none) :
    ZoneGenerator.iter db dns_ip kms zg = .error .assertionError := by
  rw [ZoneGenerator.iter, h1, h2]
  rfl

/-- Closed witness for C7 (amended): the assertion fires on a concrete
generator with neither serial nor serial generator. -/
theorem C7_iter_asserts_when_neither_serial_witness :
    ZoneGenerator.iter [ngAlpha] "10.9.9.9" none ⟨[ngAlpha], none, none⟩ =
      .error .assertionError :=
  C7_iter_asserts_when_neither_serial [ngAlpha] "10.9.9.9" none ⟨[ngAlpha], none, none⟩ rfl rfl

/-- Counterexample for C7 as stated ("exactly one ... must be supplied"):
supplying BOTH a serial and a serial generator does not fail — iteration
succeeds and returns the zones, using the nonzero supplied serial. -/
theorem C7_counterexample :
    ZoneGenerator.iter [ngAlpha] "10.9.9.9" none ⟨[ngAlpha], some 3, some (fun _ => 9)⟩ =
      .ok ([ZoneConfig.forward ⟨"alpha", 3, "10.9.9.9",
          [("alpha-host", "10.0.0.5")], [], [("10.0.0.100", "10.0.0.200")]⟩,
        ZoneConfig.reverse ⟨"alpha", 3, [("alpha-host", "10.0.0.5")], "10.0.0.0/24",
          [("10.0.0.100", "10.0.0.200")]⟩], some (fun _ => 9)) :=
  rfl

/-- C6 (code bug): the reverse pass does NOT process the node groups
sorted by their network-details key, contradicting both the claim and the
function's own docstring ("Generator of reverse zones, sorted by
network").  `sorted(nodegroups, key=networks.get)` consults the `networks`
lazy cache via `dict.get`, which never invokes `__missing__`; the cache is
still empty when the sort runs (the loop body populates it only
afterwards), so every sort key is `None` and the input order is kept.  On
the input `[ngBeta, ngAlpha]` the zones come out in input order
(192.168.0.0/24 before 10.0.0.0/24), although alpha's network-details key
sorts strictly before beta's. -/
theorem C6_reverse_pass_not_sorted :
    (gen_reverse_zones (get_reverse_nodegroups [ngBeta, ngAlpha]) 42 freshMappings
        freshNetworks).map (fun z => z.network) = ["192.168.0.0/24", "10.0.0.0/24"] ∧
    freshNetworks.get ngBeta = none ∧
    freshNetworks.get ngAlpha = none ∧
    cmpDetails (networkDetails ngAlpha) (networkDetails ngBeta) = .lt ∧
    ["192.168.0.0/24", "10.0.0.0/24"] ≠ ["10.0.0.0/24", "192.168.0.0/24"] :=
  ⟨rfl, rfl, rfl, by decide, by decide⟩

theorem mem_dictInsert {α β : Type} [DecidableEq α] :
    ∀ {l : List (α × β)} {p x : α × β}, x ∈ dictInsert l p → x ∈ l ∨ x = p
  | [], _, _, h => by
    rw [dictInsert] at h
    exact Or.inr (List.mem_singleton.mp h)
  | (k, v) :: rest, p, x, h => by
    rw [dictInsert] at h
    by_cases hk : k = p.1
    · rw [if_pos hk] at h
      rcases List.mem_cons.mp h with h | h
      · exact Or.inr h
      · exact Or.inl (List.mem_cons_of_mem _ h)
    · rw [if_neg hk] at h
      rcases List.mem_cons.mp h with h | h
      · exact Or.inl (h ▸ List.mem_cons_self _ _)
      · rcases mem_dictInsert h with h | h
        · exact Or.inl (List.mem_cons_of_mem _ h)
        · exact Or.inr h

theorem mem_foldl_dictInsert {α β : Type} [DecidableEq α] :
    ∀ {l acc : List (α × β)} {x : α × β}, x ∈ l.foldl dictInsert acc → x ∈ acc ∨ x ∈ l := by
  intro l
  induction l with
  | nil =>
    intro acc x h
    exact Or.inl h
  | cons p rest ih =>
    intro acc x h
    rw [List.foldl_cons] at h
    rcases ih h with h | h
    · rcases mem_dictInsert h with h | h
      · exact Or.inl h
      · exact Or.inr (h ▸ List.mem_cons_self _ _)
    · exact Or.inr (List.mem_cons_of_mem _ h)

theorem mem_of_mem_buildDict {α β : Type} [DecidableEq α] {l : List (α × β)} {x : α × β}
    (h : x ∈ buildDict l) : x ∈ l := by
  rcases mem_foldl_dictInsert h with h | h
  · exact absurd h (List.not_mem_nil x)
  · exact h

theorem mem_filter_dns_managed {l : List NodeGroup} {g : NodeGroup} :
    g ∈ filter_dns_managed l ↔ g ∈ l ∧ g.dnsManaged = true := by
  rw [filter_dns_managed, List.mem_dedup, List.mem_filter]

theorem groupRuns_flatten : ∀ l : List NodeGroup, (groupRuns l).flatMap (fun dg => dg.2) = l
  | [] => rfl
  | g :: rest => by
    have ih := groupRuns_flatten rest
    rw [groupRuns]
    cases hGR : groupRuns rest with
    | nil =>
      rw [hGR] at ih
      simp only [List.flatMap_nil] at ih
      simp [← ih]
    | cons dg more =>
      obtain ⟨d, gs⟩ := dg
      rw [hGR] at ih
      dsimp only
      by_cases hname : g.name = d
      · rw [if_pos hname]
        simp only [List.flatMap_cons] at ih ⊢
        rw [← ih]
        rfl
      · rw [if_neg hname]
        simp only [List.flatMap_cons] at ih ⊢
        rw [← ih]
        rfl

theorem groupRuns_names : ∀ {l : List NodeGroup} {d : String} {gs : List NodeGroup},
    (d, gs) ∈ groupRuns l → gs ≠ [] ∧ ∀ g ∈ gs, g.name = d
  | [], d, gs, h => absurd h (List.not_mem_nil _)
  | g :: rest, d, gs, h => by
    rw [groupRuns] at h
    cases hGR : groupRuns rest with
    | nil =>
      rw [hGR] at h
      obtain ⟨hd, hgs⟩ := Prod.mk.inj (List.mem_singleton.mp h)
      subst hd
      subst hgs
      exact ⟨by simp, by simp⟩
    | cons dg more =>
      obtain ⟨d0, gs0⟩ := dg
      rw [hGR] at h
      dsimp only at h
      by_cases hname : g.name = d0
      · rw [if_pos hname] at h
        rcases List.mem_cons.mp h with h | h
        · obtain ⟨hd, hgs⟩ := Prod.mk.inj h
          subst hd
          subst hgs
          have prev := groupRuns_names (l := rest) (hGR ▸ List.mem_cons_self _ _)
          refine ⟨by simp, ?_⟩
          intro x hx
          rcases List.mem_cons.mp hx with hx | hx
          · exact hx ▸ hname
          · exact prev.2 x hx
        · exact groupRuns_names (l := rest) (hGR ▸ List.mem_cons_of_mem _ h)
      · rw [if_neg hname] at h
        rcases List.mem_cons.mp h with h | h
        · obtain ⟨hd, hgs⟩ := Prod.mk.inj h
          subst hd
          subst hgs
          exact ⟨by simp, by simp⟩
        · exact groupRuns_names (l := rest) (hGR ▸ h)

theorem mem_of_mem_groupRuns {l : List NodeGroup} {d : String} {gs : List NodeGroup}
    {g : NodeGroup} (hdg : (d, gs) ∈ groupRuns l) (hg : g ∈ gs) : g ∈ l := by
  rw [← groupRuns_flatten l]
  exact List.mem_flatMap.mpr ⟨(d, gs), hdg, hg⟩

/-- C8: a node group `G` with DNS management disabled is excluded from
both passes: it is in neither the forward-eligible nor the
reverse-eligible set, every hostname/ip entry of every forward zone comes
from a DNS-managed group of the zone's domain, and every reverse zone is
generated from a DNS-managed group (its domain, mapping and data are that
group's).  Hence no zone descriptor of the pass references `G`. -/
theorem C8_disabled_group_excluded
    (db input : List NodeGroup) (G : NodeGroup) (serial : Nat) (dns_ip : String)
    (srv : List SRVRecord) (hG : G.dnsManaged = false) :
    (G ∉ get_forward_nodegroups db (input.map (fun g => g.name)) ∧
      G ∉ get_reverse_nodegroups input) ∧
    (∀ z ∈ gen_forward_zones (get_forward_nodegroups db (input.map (fun g => g.name)))
        serial dns_ip freshMappings srv,
      ∀ e ∈ z.mapping, ∃ g, g ∈ get_forward_nodegroups db (input.map (fun g => g.name)) ∧
        g.dnsManaged = true ∧ g.name = z.domain ∧ e ∈ g.hostmap) ∧
    (∀ z ∈ gen_reverse_zones (get_reverse_nodegroups input) serial freshMappings freshNetworks,
      ∃ g, g ∈ get_reverse_nodegroups input ∧ g.dnsManaged = true ∧
        z.domain = g.name ∧ z.mapping = g.hostmap) := by
  refine ⟨⟨?_, ?_⟩, ?_, ?_⟩
  · intro hmem
    rw [get_forward_nodegroups] at hmem
    exact absurd (mem_filter_dns_managed.mp hmem).2 (by simp [hG])
  · intro hmem
    rw [get_reverse_nodegroups] at hmem
    exact absurd (mem_filter_dns_managed.mp hmem).2 (by simp [hG])
  · intro z hz e he
    rw [gen_forward_zones] at hz
    obtain ⟨dg, hdg, rfl⟩ := List.mem_map.mp hz
    have he' : e ∈ dg.2.flatMap (fun g => g.hostmap) := mem_of_mem_buildDict he
    obtain ⟨g, hgmem, hghost⟩ := List.mem_flatMap.mp he'
    obtain ⟨d, gs⟩ := dg
    have hname := (groupRuns_names hdg).2 g hgmem
    have hgl : g ∈ sortByName (get_forward_nodegroups db (input.map (fun g => g.name))) :=
      mem_of_mem_groupRuns hdg hgmem
    rw [sortByName, List.mem_insertionSort] at hgl
    exact ⟨g, hgl, (mem_filter_dns_managed.mp hgl).2, hname, hghost⟩
  · intro z hz
    rw [gen_reverse_zones] at hz
    obtain ⟨g, hgmem, hmem⟩ := List.mem_flatMap.mp hz
    obtain ⟨nr, _, rfl⟩ := List.mem_map.mp hmem
    rw [List.mem_insertionSort] at hgmem
    exact ⟨g, hgmem, (mem_filter_dns_managed.mp hgmem).2, rfl, rfl⟩

/-- Closed witness for C8: the exclusion at a concrete disabled group. -/
theorem C8_disabled_group_excluded_witness :
    ngDisabled ∉ get_forward_nodegroups [ngDisabled, ngAlpha]
      ([ngDisabled, ngAlpha].map (fun g => g.name)) ∧
    ngDisabled ∉ get_reverse_nodegroups [ngDisabled, ngAlpha] :=
  (C8_disabled_group_excluded [ngDisabled, ngAlpha] [ngDisabled, ngAlpha] ngDisabled 1
    "10.9.9.9" [] rfl).1

theorem dictInsert_of_fresh_key {α β : Type} [DecidableEq α] :
    ∀ {acc : List (α × β)} {p : α × β}, (∀ q ∈ acc, q.1 ≠ p.1) →
      dictInsert acc p = acc ++ [p]
  | [], _, _ => rfl
  | (k, v) :: rest, p, h => by
    rw [dictInsert, if_neg (h (k, v) (List.mem_cons_self _ _)),
      dictInsert_of_fresh_key (fun q hq => h q (List.mem_cons_of_mem _ hq))]
    rfl

theorem foldl_dictInsert_of_fresh_keys {α β : Type} [DecidableEq α] :
    ∀ {l acc : List (α × β)},
      (∀ p ∈ l, ∀ q ∈ acc, q.1 ≠ p.1) → (l.map Prod.fst).Nodup →
      l.foldl dictInsert acc = acc ++ l
  | [], acc, _, _ => by simp
  | p :: rest, acc, hdisj, hnd => by
    rw [List.map_cons, List.nodup_cons] at hnd
    rw [List.foldl_cons,
      dictInsert_of_fresh_key (hdisj p (List.mem_cons_self _ _)),
      foldl_dictInsert_of_fresh_keys ?_ hnd.2]
    · simp
    · intro x hx q hq
      rcases List.mem_append.mp hq with hq | hq
      · exact hdisj x (List.mem_cons_of_mem _ hx) q hq
      · obtain rfl : q = p := List.mem_singleton.mp hq
        intro hpx
        exact hnd.1 (hpx ▸ List.mem_map_of_mem Prod.fst hx)

theorem buildDict_eq_self {α β : Type} [DecidableEq α] {l : List (α × β)}
    (hnd : (l.map Prod.fst).Nodup) : buildDict l = l := by
  rw [buildDict, foldl_dictInsert_of_fresh_keys (fun p _ q hq => absurd hq (List.not_mem_nil q))
    hnd]
  rfl

theorem groupRuns_filter_of_sorted :
    ∀ {l : List NodeGroup}, l.Sorted nameLe →
      ∀ {d : String} {gs : List NodeGroup}, (d, gs) ∈ groupRuns l →
        gs = l.filter (fun x => decide (x.name = d))
  | [], _, _, _, h => absurd h (List.not_mem_nil _)
  | g :: rest, hs, d, gs, h => by
    obtain ⟨hg, hrest⟩ := List.sorted_cons.mp hs
    rw [groupRuns] at h
    cases hGR : groupRuns rest with
    | nil =>
      have hrnil : rest = [] := by
        have hfl := groupRuns_flatten rest
        rw [hGR] at hfl
        simpa using hfl.symm
      subst hrnil
      rw [hGR] at h
      obtain ⟨hd, hgs⟩ := Prod.mk.inj (List.mem_singleton.mp h)
      subst hd
      subst hgs
      simp
    | cons dg more =>
      obtain ⟨d0, gs0⟩ := dg
      rw [hGR] at h
      dsimp only at h
      have hhead : (d0, gs0) ∈ groupRuns rest := hGR ▸ List.mem_cons_self _ _
      have hgs0 : gs0 = rest.filter (fun x => decide (x.name = d0)) :=
        groupRuns_filter_of_sorted hrest hhead
      have hflat : gs0 ++ more.flatMap (fun dg => dg.2) = rest := by
        have hfl := groupRuns_flatten rest
        rw [hGR] at hfl
        simpa [List.flatMap_cons] using hfl
      have hnames0 := (groupRuns_names hhead).2
      have hne0 := (groupRuns_names hhead).1
      by_cases hname : g.name = d0
      · rw [if_pos hname] at h
        rcases List.mem_cons.mp h with heq | hmore
        · obtain ⟨hd, hgs⟩ := Prod.mk.inj heq
          subst hd
          subst hgs
          rw [List.filter_cons_of_pos (by simp [hname])]
          rw [← hgs0]
        · have hmemrest : (d, gs) ∈ groupRuns rest := hGR ▸ List.mem_cons_of_mem _ hmore
          have hgseq : gs = rest.filter (fun x => decide (x.name = d)) :=
            groupRuns_filter_of_sorted hrest hmemrest
          have hdd0 : d ≠ d0 := by
            intro hdd
            rw [← hdd] at hgs0 hnames0
            obtain ⟨x, hx⟩ := List.exists_mem_of_ne_nil _ (groupRuns_names hmemrest).1
            have hxname : x.name = d := (groupRuns_names hmemrest).2 x hx
            have hxfm : x ∈ more.flatMap (fun dg => dg.2) :=
              List.mem_flatMap.mpr ⟨(d, gs), hmore, hx⟩
            have hfe : rest.filter (fun y => decide (y.name = d)) =
                gs0 ++ (more.flatMap (fun dg => dg.2)).filter
                  (fun y => decide (y.name = d)) := by
              rw [← hflat, List.filter_append,
                List.filter_eq_self.mpr (fun a ha => by simp [hnames0 a ha])]
            have hX : gs0 = gs0 ++ (more.flatMap (fun dg => dg.2)).filter
                (fun y => decide (y.name = d)) := by
              rw [← hfe, ← hgs0]
            have hXnil : (more.flatMap (fun dg => dg.2)).filter
                (fun y => decide (y.name = d)) = [] := by
              have hlen := congrArg List.length hX
              rw [List.length_append] at hlen
              exact List.eq_nil_of_length_eq_zero (by omega)
            have hxX : x ∈ (more.flatMap (fun dg => dg.2)).filter
                (fun y => decide (y.name = d)) :=
              List.mem_filter.mpr ⟨hxfm, by simp [hxname]⟩
            rw [hXnil] at hxX
            exact absurd hxX (List.not_mem_nil x)
          rw [List.filter_cons_of_neg
            (by simp only [hname, decide_eq_true_eq]; exact fun hc => hdd0 hc.symm)]
          exact hgseq
      · rw [if_neg hname] at h
        have hnog : ∀ x ∈ rest, x.name ≠ g.name := by
          cases hgs0c : gs0 with
          | nil => exact absurd hgs0c hne0
          | cons y gs0rest =>
            have hyname : y.name = d0 := hnames0 y (hgs0c ▸ List.mem_cons_self _ _)
            have hresteq : rest = y :: (gs0rest ++ more.flatMap (fun dg => dg.2)) := by
              rw [← hflat, hgs0c]
              rfl
            intro x hx hxg
            have hgy : g.name ≤ y.name := hg y (by rw [hresteq]; exact List.mem_cons_self _ _)
            rw [hresteq] at hx
            rcases List.mem_cons.mp hx with rfl | hxtail
            · exact hname (hxg ▸ hyname)
            · have hyx : y.name ≤ x.name :=
                (List.sorted_cons.mp (hresteq ▸ hrest)).1 x hxtail
              have hgyeq : g.name = y.name := le_antisymm hgy (hxg ▸ hyx)
              exact hname (hgyeq.trans hyname)
        rcases List.mem_cons.mp h with heq | hrest'
        · obtain ⟨hd, hgs⟩ := Prod.mk.inj heq
          subst hd
          subst hgs
          rw [List.filter_cons_of_pos (by simp)]
          rw [List.filter_eq_nil_iff.mpr (fun a ha => by simp [hnog a ha])]
        · have hmemrest : (d, gs) ∈ groupRuns rest := hGR ▸ hrest'
          have hgseq : gs = rest.filter (fun x => decide (x.name = d)) :=
            groupRuns_filter_of_sorted hrest hmemrest
          have hgnd : g.name ≠ d := by
            intro hgd
            obtain ⟨x, hx⟩ := List.exists_mem_of_ne_nil _ (groupRuns_names hmemrest).1
            have hxname : x.name = d := (groupRuns_names hmemrest).2 x hx
            exact hnog x (mem_of_mem_groupRuns hmemrest hx) (hxname.trans hgd.symm)
          rw [List.filter_cons_of_neg (by simp only [decide_eq_true_eq]; exact hgnd)]
          exact hgseq

/-- C2: the forward zone emitted for a domain carries a hostname to ip
mapping that is a permutation of the concatenated mappings of all
forward-eligible node groups sharing that domain name — every entry of
every contributing group appears exactly once, nothing is lost and
nothing is duplicated — under the precondition that hostnames are unique
across the domain's groups. -/
theorem C2_forward_zone_mapping_is_union
    (ngs : List NodeGroup) (serial : Nat) (dns_ip : String) (srv : List SRVRecord)
    (z : DNSForwardZoneConfig)
    (hz : z ∈ gen_forward_zones ngs serial dns_ip freshMappings srv)
    (huniq : (((ngs.filter (fun g => decide (g.name = z.domain))).flatMap
        (fun g => g.hostmap)).map Prod.fst).Nodup) :
    z.mapping.Perm
      ((ngs.filter (fun g => decide (g.name = z.domain))).flatMap (fun g => g.hostmap)) := by
  rw [gen_forward_zones] at hz
  obtain ⟨⟨d, gs⟩, hdg, rfl⟩ := List.mem_map.mp hz
  dsimp only at huniq ⊢
  have hsorted : (sortByName ngs).Sorted nameLe := List.sorted_insertionSort nameLe ngs
  have hgs : gs = (sortByName ngs).filter (fun x => decide (x.name = d)) :=
    groupRuns_filter_of_sorted hsorted hdg
  have hperm : ((sortByName ngs).filter (fun x => decide (x.name = d))).Perm
      (ngs.filter (fun x => decide (x.name = d))) :=
    (List.perm_insertionSort nameLe ngs).filter _
  have hpermflat : (gs.flatMap (fun g => g.hostmap)).Perm
      ((ngs.filter (fun x => decide (x.name = d))).flatMap (fun g => g.hostmap)) := by
    rw [hgs]
    exact List.Perm.flatMap_right _ hperm
  have hnodup : ((gs.flatMap (fun g => g.hostmap)).map Prod.fst).Nodup :=
    (List.Perm.nodup_iff (hpermflat.map Prod.fst)).mpr huniq
  show (buildDict (gs.flatMap (fun g => g.hostmap))).Perm _
  rw [buildDict_eq_self hnodup]
  exact hpermflat

/-- Closed witness for C2: two concrete node groups sharing the domain
"lab"; the emitted zone's mapping is a permutation of the two groups'
concatenated host mappings. -/
theorem C2_forward_zone_mapping_is_union_witness :
    ([("alpha-host", "10.0.0.5"), ("beta-host", "10.0.0.6")] :
        List (String × String)).Perm
      (([ngLab1, ngLab2].filter (fun g => decide (g.name = "lab"))).flatMap
        (fun g => g.hostmap)) :=
  C2_forward_zone_mapping_is_union [ngLab1, ngLab2] 42 "10.9.9.9" []
    ⟨"lab", 42, "10.9.9.9", [("alpha-host", "10.0.0.5"), ("beta-host", "10.0.0.6")], [],
      [("10.0.0.100", "10.0.0.200"), ("10.0.1.100", "10.0.1.200")]⟩
    (by
      have hsort : sortByName [ngLab1, ngLab2] = [ngLab1, ngLab2] := by
        show List.orderedInsert nameLe ngLab1 (List.orderedInsert nameLe ngLab2 []) = _
        rw [List.orderedInsert, List.orderedInsert,
          if_pos (show nameLe ngLab1 ngLab2 from le_refl "lab")]
      rw [gen_forward_zones, hsort]
      exact List.mem_singleton.mpr rfl)
    (by decide)

